import Mathlib

/-!
Verification of the avtracking backend's reconciliation and aggregation pipeline
(`server.js`): the token cache (`getAccessToken`), the two row adapters
(`adaptItemsStats`, `adaptCallsStats`), the merge-by-date reconciler of the
`/stats` handler, and the period aggregator (`groupByPeriod`).

Embedding conventions:
* JavaScript numbers appearing in the pipeline are integers; a field that may be
  `null`/`undefined` is an `Option Int` (`none` models both, which downstream
  code never distinguishes: both are falsy and both are nullish).
* A calendar date string `"YYYY-MM-DD"` is represented by its component triple
  `Date`; `toISO` renders the string back.  JavaScript `Date` objects (UTC
  midnight) are represented by their epoch day number via `daysFromCivil`, and
  `toISOString().slice(0,10)` by `civilFromDays` plus `toISO`.  This models
  date strings whose parse succeeds (an unparsable date string makes the real
  handler throw `RangeError` in `toISOString` and the request fail).
* `a.date.localeCompare(b.date)` on such strings is code-point lexicographic
  comparison, modelled by `strLe` on the rendered strings.
* The upstream JSON payloads are modelled by structures with `Option` fields
  for exactly the keys the code probes; a missing key is `none`.
-/

namespace AvTracking

/-- jsNum models the JavaScript read `x || 0` of a numeric field `x` that may be
`null`/`undefined`: missing values give `0`, and a stored `0` also gives `0`,
so `Option.getD 0` semantics are exact. -/
def jsNum : Option Int → Int
  | some v => v
  | none => 0

/-- jsOr models both `a || b` and `a ?? b` for the non-numeric values this code
applies them to (arrays, strings from upstream, objects): the left operand wins
whenever it is present (`some`), including a present empty array, which is
truthy in JavaScript. -/
def jsOr {α : Type} : Option α → Option α → Option α
  | some x, _ => some x
  | none, b => b

/-- jsOrNum models `a || b` for a numeric `a`: a present `0` is falsy, so it
falls through to `b`, unlike `??`. -/
def jsOrNum (a : Option Int) (b : Int) : Int :=
  match a with
  | some v => if v = 0 then b else v
  | none => b

/-- Date is the component triple of an ISO calendar date string `"YYYY-MM-DD"`. -/
structure Date where
  y : Int
  m : Int
  d : Int
deriving DecidableEq

/-- daysFromCivil converts a civil date to its day number with day 0 at
1970-01-01, modelling what `new Date(s + "T00:00:00Z")` stores (in days).
Standard era-based civil-calendar conversion. -/
def daysFromCivil (dt : Date) : Int :=
  let y := if dt.m ≤ 2 then dt.y - 1 else dt.y
  let era := y.ediv 400
  let yoe := y - era * 400
  let mp := (dt.m + 9).emod 12
  let doy := (153 * mp + 2).ediv 5 + dt.d - 1
  let doe := yoe * 365 + yoe.ediv 4 - yoe.ediv 100 + doy
  era * 146097 + doe - 719468

/-- civilFromDays converts an epoch day number back to the civil date, modelling
the `getUTCFullYear`/`getUTCMonth`/`getUTCDate` reads and `toISOString` of a
`Date` holding that day.  Standard era-based conversion, inverse of
`daysFromCivil`. -/
def civilFromDays (z0 : Int) : Date :=
  let z := z0 + 719468
  let era := z.ediv 146097
  let doe := z - era * 146097
  let yoe := (doe - doe.ediv 1460 + doe.ediv 36524 - doe.ediv 146096).ediv 365
  let y := yoe + era * 400
  let doy := doe - (365 * yoe + yoe.ediv 4 - yoe.ediv 100)
  let mp := (5 * doy + 2).ediv 153
  let dd := doy - (153 * mp + 2).ediv 5 + 1
  let mm := if mp < 10 then mp + 3 else mp - 9
  if mm ≤ 2 then ⟨y + 1, mm, dd⟩ else ⟨y, mm, dd⟩

/-- canon is parse-then-reformat: the date a row's date string denotes after
passing through a JavaScript `Date` and `toISOString().slice(0,10)`.  A triple
is "canonical" (an actual calendar date) exactly when `canon` fixes it. -/
def canon (dt : Date) : Date := civilFromDays (daysFromCivil dt)

/-- jsGetUTCDay models `Date.prototype.getUTCDay` (0 = Sunday … 6 = Saturday):
day 0 (1970-01-01) was a Thursday (4), and ECMAScript's WeekDay uses the
always-nonnegative modulus. -/
def jsGetUTCDay (dt : Date) : Int := (daysFromCivil dt + 4).emod 7

/-- pad2 renders an integer in `[0, 99]` with two digits. -/
def pad2 (n : Int) : String := if n < 10 then "0" ++ toString n else toString n

/-- pad4 renders an integer in `[0, 9999]` with four digits. -/
def pad4 (n : Int) : String :=
  if n < 10 then "000" ++ toString n
  else if n < 100 then "00" ++ toString n
  else if n < 1000 then "0" ++ toString n
  else toString n

/-- toISO renders a date triple as the `"YYYY-MM-DD"` string (the
`toISOString().slice(0,10)` format, for years 0-9999). -/
def toISO (dt : Date) : String := pad4 dt.y ++ "-" ++ pad2 dt.m ++ "-" ++ pad2 dt.d

/-- leChars is code-point lexicographic `≤` on strings as character lists. -/
def leChars : List Char → List Char → Bool
  | [], _ => true
  | _ :: _, [] => false
  | c :: cs, d :: ds =>
    if c.toNat < d.toNat then true
    else if d.toNat < c.toNat then false
    else leChars cs ds

/-- strLe is the comparison `a.localeCompare(b) <= 0` for the ASCII
digit/hyphen date strings this pipeline sorts: code-point lexicographic. -/
def strLe (a b : String) : Bool := leChars a.data b.data

/-- Row is the canonical row shape `{date, views, clicks, contacts, calls,
sales}` flowing through the pipeline; every numeric field may be absent
(`undefined`/`null`).  Aggregated buckets have the same dynamic shape, so they
share this type. -/
structure Row where
  date : Date
  views : Option Int
  clicks : Option Int
  contacts : Option Int
  calls : Option Int
  sales : Option Int
deriving DecidableEq

/-- Bucket is an output bucket of the aggregator; dynamically the same shape as
a row. -/
abbrev Bucket := Row

/-- CallPair is an output record `{date, calls}` of the call-stats adapter. -/
structure CallPair where
  date : Date
  calls : Option Int
deriving DecidableEq

/-- rowLe is the sort comparator of the pipeline,
`(a,b) => a.date.localeCompare(b.date)`. -/
def rowLe (a b : Row) : Prop := strLe (toISO a.date) (toISO b.date) = true

instance : DecidableRel rowLe := fun a b =>
  inferInstanceAs (Decidable (strLe (toISO a.date) (toISO b.date) = true))

/-- dateKey computes the bucket key of `groupByPeriod` for one row date
(lines 52-61 of `server.js`): the Monday of the date's week for `"week"`, the
first of the month for `"month"`, and the (reformatted) date itself otherwise. -/
def dateKey (period : String) (dt : Date) : Date :=
  if period = "week" then
    let wd := (jsGetUTCDay dt + 6).emod 7
    civilFromDays (daysFromCivil dt - wd)
  else if period = "month" then
    let c := canon dt
    ⟨c.y, c.m, 1⟩
  else canon dt

/-- newBucket is the fresh accumulator
`{date:key, views:0, clicks:0, contacts:0, calls:0, sales:0}` of line 63. -/
def newBucket (key : Date) : Bucket :=
  { date := key, views := some 0, clicks := some 0, contacts := some 0,
    calls := some 0, sales := some 0 }

/-- addRow performs the five `acc.f += r.f || 0` updates of lines 65-69.  An
accumulator field that were not a number would stay not-a-number (`none` models
that), but `newBucket` always initialises all five. -/
def addRow (b : Bucket) (r : Row) : Bucket :=
  { b with
    views := b.views.map (· + jsNum r.views),
    clicks := b.clicks.map (· + jsNum r.clicks),
    contacts := b.contacts.map (· + jsNum r.contacts),
    calls := b.calls.map (· + jsNum r.calls),
    sales := b.sales.map (· + jsNum r.sales) }

/-- upsert is one loop iteration of `groupByPeriod` on the `Map` (lines 63-69),
as an association list in insertion order keyed by the rendered key string:
update the bucket with this key in place, or append a fresh one. -/
def upsert (m : List Bucket) (key : Date) (r : Row) : List Bucket :=
  match m with
  | [] => [addRow (newBucket key) r]
  | b :: bs => if toISO b.date = toISO key then addRow b r :: bs else b :: upsert bs key r

/-- groupCore is the `Map` contents after the loop of `groupByPeriod`, in
insertion order (`[...map.values()]` before sorting). -/
def groupCore (rows : List Row) (period : String) : List Bucket :=
  rows.foldl (fun m r => upsert m (dateKey period r.date) r) []

/-- groupByPeriod models `groupByPeriod(rows, period)` (lines 49-72): bucket by
period key, then sort by the key strings.  All bucket keys are distinct, so any
comparison sort returns this same list. -/
def groupByPeriod (rows : List Row) (period : String) : List Bucket :=
  (groupCore rows period).insertionSort rowLe

/-- setByDate models `Map.prototype.set` on an association list in insertion
order: `new Map(rows.map(r=>[r.date, r]))` replaces the value at an existing
key in place (a later duplicate date overwrites an earlier one), else appends. -/
def setByDate (m : List Row) (r : Row) : List Row :=
  match m with
  | [] => [r]
  | x :: xs => if toISO x.date = toISO r.date then r :: xs else x :: setByDate xs r

/-- rowsMap is `new Map(rows.map(r=>[r.date, r]))` of line 182. -/
def rowsMap (rows : List Row) : List Row :=
  rows.foldl setByDate []

/-- callRow is the row built for a call-stats date with no item row (lines
184-185): `t = {date: c.date}` then `t.calls = (t.calls||0)+(c.calls||0)`;
every other field stays undefined. -/
def callRow (c : CallPair) : Row :=
  { date := c.date, views := none, clicks := none, contacts := none,
    calls := some (0 + jsNum c.calls), sales := none }

/-- addCall is one iteration of the merge loop (lines 183-187): add the call
count onto the row with this date, or append a fresh partial row. -/
def addCall (m : List Row) (c : CallPair) : List Row :=
  match m with
  | [] => [callRow c]
  | x :: xs =>
    if toISO x.date = toISO c.date then
      { x with calls := some (jsNum x.calls + jsNum c.calls) } :: xs
    else x :: addCall xs c

/-- mergeRows is the reconciler of the `/stats` handler (lines 182-188): build
the date-keyed map from the item rows, fold the call pairs into it, and sort the
values by date string. -/
def mergeRows (rows : List Row) (calls : List CallPair) : List Row :=
  (calls.foldl addCall (rowsMap rows)).insertionSort rowLe

/-- ItemEntry is one daily entry of an item-stats record, with exactly the keys
`adaptItemsStats` probes. -/
structure ItemEntry where
  date : Option Date
  day : Option Date
  dt : Option Date
  views : Option Int
  uniqViews : Option Int
  totalViews : Option Int
  contacts : Option Int
  uniqContacts : Option Int
  totalContacts : Option Int
deriving DecidableEq

/-- ItemRecord is one record of the item-stats payload; each of the three
candidate keys may be absent (`none`) or hold a list (possibly empty). -/
structure ItemRecord where
  stats : Option (List ItemEntry)
  dates : Option (List ItemEntry)
  statistics : Option (List ItemEntry)
deriving DecidableEq

/-- ItemsRaw is the item-stats payload: record lists may sit under `result`
and/or `data` (`none` models a missing or non-array value). -/
structure ItemsRaw where
  result : Option (List ItemRecord)
  data : Option (List ItemRecord)
deriving DecidableEq

/-- entryRow maps one daily entry to a canonical row (lines 95-103): date from
`date || day || dt` (skip the entry if all absent), `views` from
`views ?? uniqViews ?? totalViews ?? 0`, `contacts` analogously, `clicks`
explicitly null, `calls` and `sales` zero. -/
def entryRow (d : ItemEntry) : Option Row :=
  match jsOr (jsOr d.date d.day) d.dt with
  | none => none
  | some date => some
    { date := date,
      views := some ((jsOr (jsOr d.views d.uniqViews) d.totalViews).getD 0),
      clicks := none,
      contacts := some ((jsOr (jsOr d.contacts d.uniqContacts) d.totalContacts).getD 0),
      calls := some 0,
      sales := some 0 }

/-- recordRows extracts the date-series of one record (line 94):
`b?.stats || b?.dates || b?.statistics || []` — the first PRESENT key wins,
even when it holds an empty array (arrays are truthy in JavaScript). -/
def recordRows (b : ItemRecord) : List Row :=
  ((jsOr (jsOr b.stats b.dates) b.statistics).getD []).filterMap entryRow

/-- adaptItemsStats models `adaptItemsStats(raw)` (lines 80-106): concatenate
the record lists found under `result` and `data`, then adapt every daily entry
of every record. -/
def adaptItemsStats (raw : ItemsRaw) : List Row :=
  ((raw.result.getD []) ++ (raw.data.getD [])).flatMap recordRows

/-- CallRec is one record of the call-stats payload, with exactly the keys
`adaptCallsStats` probes. -/
structure CallRec where
  date : Option Date
  day : Option Date
  dt : Option Date
  calls : Option Int
  success_calls : Option Int
  total : Option Int
deriving DecidableEq

/-- CallsRaw is the call-stats payload: records under `result` or `data`
(first present wins, no concatenation, line 110). -/
structure CallsRaw where
  result : Option (List CallRec)
  data : Option (List CallRec)
deriving DecidableEq

/-- callPairOf maps one call-stats record to a `{date, calls}` pair (lines
111-115), skipping it when no date key is present. -/
def callPairOf (it : CallRec) : Option CallPair :=
  match jsOr (jsOr it.date it.day) it.dt with
  | none => none
  | some date => some
    { date := date,
      calls := some ((jsOr (jsOr it.calls it.success_calls) it.total).getD 0) }

/-- adaptCallsStats models `adaptCallsStats(raw)` (lines 108-117). -/
def adaptCallsStats (raw : CallsRaw) : List CallPair :=
  ((jsOr raw.result raw.data).getD []).filterMap callPairOf

/-- TokenBody is the parsed JSON body of a token exchange; either field may be
absent. -/
structure TokenBody where
  access_token : Option String
  expires_in : Option Int
deriving DecidableEq

/-- TokenResp is the outcome of the `fetch` to the token endpoint: the fetch
itself may reject, or deliver a response with an `ok` flag, status, body text,
and a JSON parse result (`none` models `r.json()` throwing). -/
inductive TokenResp where
  | netError (msg : String)
  | resp (ok : Bool) (status : Int) (text : String) (body : Option TokenBody)
deriving DecidableEq

/-- AuthState is the module-level token cache: `accessToken` (line 20, `null`
or a string — possibly `undefined` after a body without `access_token`) and
`tokenExp` (line 21). -/
structure AuthState where
  accessToken : Option String
  tokenExp : Int
deriving DecidableEq

/-- tokenTruthy is the truthiness test of `accessToken` on line 25: `null`,
`undefined` and the empty string are falsy. -/
def tokenTruthy : Option String → Bool
  | none => false
  | some s => !(s == "")

/-- getAccessToken models `getAccessToken()` (lines 23-45) as a function of the
cache state, the current epoch second, and the upstream outcome.  It returns
the function's outcome (`Except.error` models a thrown/rejected error), the new
cache state, and whether a token exchange was performed. -/
def getAccessToken (st : AuthState) (now : Int) (r : TokenResp) :
    Except String (Option String) × AuthState × Bool :=
  if tokenTruthy st.accessToken = true ∧ now < st.tokenExp - 60 then
    (Except.ok st.accessToken, st, false)
  else
    match r with
    | .netError msg => (Except.error msg, st, true)
    | .resp ok status text body =>
      if ok = false then
        (Except.error ("OAuth error " ++ toString status ++ ": " ++ text), st, true)
      else
        match body with
        | none => (Except.error "unexpected end of JSON input", st, true)
        | some j =>
          (Except.ok j.access_token,
           { accessToken := j.access_token, tokenExp := now + jsOrNum j.expires_in 3600 },
           true)

/-- CallFetch is the outcome of the optional call-stats fetch in the `/stats`
handler: the fetch may reject, or deliver `ok` plus a JSON parse result
(`none` models `r2.json()` throwing). -/
inductive CallFetch where
  | fail (msg : String)
  | resp (ok : Bool) (body : Option CallsRaw)
deriving DecidableEq

/-- callFailed marks the outcomes in which the call-stats step contributes
nothing: a rejected fetch, a non-success status, or an unparsable body. -/
def callFailed : CallFetch → Bool
  | .fail _ => true
  | .resp ok body => !ok || body.isNone

/-- statsSeries models the data path of the `/stats` handler after the token
step (lines 162-194): adapt the item payload (`none` models a failed fetch or
parse, which the outer catch turns into a 500), then best-effort merge of the
call stats (the inner try swallows any failure, keeping the item rows), then
group by the requested period.  The handler returns the series alongside the
echoed `itemId`. -/
def statsSeries (itemBody : Option ItemsRaw) (cf : CallFetch) (grouping : String) :
    Except String (List Bucket) :=
  match itemBody with
  | none => Except.error "items request failed"
  | some raw =>
    let rows := adaptItemsStats raw
    let rows2 :=
      match cf with
      | .fail _ => rows
      | .resp ok body =>
        if ok then
          match body with
          | none => rows
          | some j2 => mergeRows rows (adaptCallsStats j2)
        else rows
    Except.ok (groupByPeriod rows2 grouping)

/-! ### Order properties of the comparator -/

theorem leChars_cons_iff (c d : Char) (cs ds : List Char) :
    leChars (c :: cs) (d :: ds) = true ↔
      c.toNat < d.toNat ∨ (c.toNat = d.toNat ∧ leChars cs ds = true) := by
  simp only [leChars]
  by_cases h1 : c.toNat < d.toNat
  · simp [h1]
  · by_cases h2 : d.toNat < c.toNat
    · rw [if_neg h1, if_pos h2]
      constructor
      · intro h
        simp at h
      · rintro (h | ⟨h, _⟩) <;> omega
    · rw [if_neg h1, if_neg h2]
      have h3 : c.toNat = d.toNat := by omega
      constructor
      · intro h
        exact Or.inr ⟨h3, h⟩
      · rintro (h | ⟨_, h⟩)
        · omega
        · exact h

theorem leChars_total : ∀ a b : List Char, leChars a b = true ∨ leChars b a = true
  | [], _ => Or.inl rfl
  | _ :: _, [] => Or.inr rfl
  | c :: cs, d :: ds => by
    rw [leChars_cons_iff, leChars_cons_iff]
    rcases Nat.lt_trichotomy c.toNat d.toNat with h | h | h
    · exact Or.inl (Or.inl h)
    · rcases leChars_total cs ds with hl | hl
      · exact Or.inl (Or.inr ⟨h, hl⟩)
      · exact Or.inr (Or.inr ⟨h.symm, hl⟩)
    · exact Or.inr (Or.inl h)

theorem leChars_trans : ∀ a b c : List Char,
    leChars a b = true → leChars b c = true → leChars a c = true := by
  intro a
  induction a with
  | nil =>
    intro b c _ _
    rfl
  | cons x xs ih =>
    intro b c hab hbc
    cases b with
    | nil => exact absurd hab (by simp [leChars])
    | cons y ys =>
      cases c with
      | nil => exact absurd hbc (by simp [leChars])
      | cons z zs =>
        rw [leChars_cons_iff] at hab hbc ⊢
        rcases hab with h1 | ⟨h1, hrec1⟩ <;> rcases hbc with h2 | ⟨h2, hrec2⟩
        · exact Or.inl (by omega)
        · exact Or.inl (by omega)
        · exact Or.inl (by omega)
        · exact Or.inr ⟨by omega, ih ys zs hrec1 hrec2⟩

instance : IsTotal Row rowLe :=
  ⟨fun a b => leChars_total (toISO a.date).data (toISO b.date).data⟩

instance : IsTrans Row rowLe := ⟨fun _ _ _ hab hbc => leChars_trans _ _ _ hab hbc⟩

/-! ### Sum and field invariants of the aggregator -/

/-- sumBy is the total of one numeric field over a row list, reading an
absent/null field as `0` exactly as `sum(arr, k)` (line 48) does. -/
def sumBy (l : List Row) (f : Row → Option Int) : Int :=
  (l.map fun r => jsNum (f r)).sum

theorem jsNum_some (v : Int) : jsNum (some v) = v := rfl

theorem sumBy_nil (f : Row → Option Int) : sumBy [] f = 0 := rfl

theorem sumBy_cons (r : Row) (l : List Row) (f : Row → Option Int) :
    sumBy (r :: l) f = jsNum (f r) + sumBy l f := by
  simp [sumBy]

theorem sumBy_append (l1 l2 : List Row) (f : Row → Option Int) :
    sumBy (l1 ++ l2) f = sumBy l1 f + sumBy l2 f := by
  simp [sumBy]

/-- upsert_field: one map update preserves definedness of a numeric field and
adds exactly this row's contribution to the field's total, for any of the five
field selectors (characterised by how `addRow` and `newBucket` act on them). -/
theorem upsert_field (f : Row → Option Int)
    (hAdd : ∀ b r, f (addRow b r) = (f b).map (· + jsNum (f r)))
    (hNew : ∀ k, f (newBucket k) = some 0) :
    ∀ (m : List Bucket), (∀ b ∈ m, (f b).isSome) → ∀ (k : Date) (r : Row),
      (∀ b ∈ upsert m k r, (f b).isSome) ∧
      sumBy (upsert m k r) f = sumBy m f + jsNum (f r) := by
  intro m
  induction m with
  | nil =>
    intro _ k r
    constructor
    · intro b hb
      rw [List.mem_singleton.mp hb, hAdd, hNew]
      rfl
    · rw [show upsert [] k r = [addRow (newBucket k) r] from rfl, sumBy_cons, sumBy_nil, hAdd,
        hNew]
      simp only [Option.map_some', jsNum_some, zero_add, add_zero]
  | cons b bs ih =>
    intro hm k r
    have hb0 : (f b).isSome := hm b (List.mem_cons_self b bs)
    obtain ⟨a, ha⟩ := Option.isSome_iff_exists.mp hb0
    simp only [upsert]
    by_cases hkey : toISO b.date = toISO k
    · rw [if_pos hkey]
      constructor
      · intro x hx
        rcases List.mem_cons.mp hx with hx | hx
        · rw [hx, hAdd, ha]
          rfl
        · exact hm x (List.mem_cons_of_mem _ hx)
      · rw [sumBy_cons, sumBy_cons, hAdd, ha]
        simp only [Option.map_some', jsNum_some]
        ring
    · rw [if_neg hkey]
      have htail : ∀ x ∈ bs, (f x).isSome := fun x hx => hm x (List.mem_cons_of_mem _ hx)
      obtain ⟨hmem, hsum⟩ := ih htail k r
      constructor
      · intro x hx
        rcases List.mem_cons.mp hx with hx | hx
        · rw [hx]
          exact hb0
        · exact hmem x hx
      · rw [sumBy_cons, sumBy_cons, hsum]
        ring

/-- groupCore_field: after the whole bucketing loop, every bucket's field is a
defined number and the field totals of buckets and input rows agree. -/
theorem groupCore_field (f : Row → Option Int)
    (hAdd : ∀ b r, f (addRow b r) = (f b).map (· + jsNum (f r)))
    (hNew : ∀ k, f (newBucket k) = some 0)
    (rows : List Row) (period : String) :
    (∀ b ∈ groupCore rows period, (f b).isSome) ∧
    sumBy (groupCore rows period) f = sumBy rows f := by
  suffices h : ∀ (m : List Bucket), (∀ b ∈ m, (f b).isSome) →
      (∀ b ∈ rows.foldl (fun m r => upsert m (dateKey period r.date) r) m, (f b).isSome) ∧
      sumBy (rows.foldl (fun m r => upsert m (dateKey period r.date) r) m) f =
        sumBy m f + sumBy rows f by
    have h0 := h [] (by simp)
    rw [sumBy_nil, zero_add] at h0
    exact h0
  induction rows with
  | nil =>
    intro m hm
    exact ⟨hm, by rw [List.foldl_nil, sumBy_nil, add_zero]⟩
  | cons r rs ih =>
    intro m hm
    rw [List.foldl_cons]
    obtain ⟨hu1, hu2⟩ := upsert_field f hAdd hNew m hm (dateKey period r.date) r
    obtain ⟨hf1, hf2⟩ := ih (upsert m (dateKey period r.date) r) hu1
    refine ⟨hf1, ?_⟩
    rw [hf2, hu2, sumBy_cons]
    ring

theorem sumBy_insertionSort (l : List Row) (f : Row → Option Int) :
    sumBy (l.insertionSort rowLe) f = sumBy l f :=
  ((List.perm_insertionSort rowLe l).map fun r => jsNum (f r)).sum_eq

/-- C1: for every row list and every period, the aggregator's output is sorted
ascending by the bucket-key date string, and the buckets partition the input:
for each of the five numeric fields, the totals over output buckets and over
input rows agree (absent/null fields read as 0), each row being absorbed into
exactly one bucket. -/
theorem groupByPeriod_sorted_partition (rows : List Row) (period : String) :
    List.Sorted rowLe (groupByPeriod rows period) ∧
    sumBy (groupByPeriod rows period) Row.views = sumBy rows Row.views ∧
    sumBy (groupByPeriod rows period) Row.clicks = sumBy rows Row.clicks ∧
    sumBy (groupByPeriod rows period) Row.contacts = sumBy rows Row.contacts ∧
    sumBy (groupByPeriod rows period) Row.calls = sumBy rows Row.calls ∧
    sumBy (groupByPeriod rows period) Row.sales = sumBy rows Row.sales := by
  refine ⟨List.sorted_insertionSort rowLe _, ?_, ?_, ?_, ?_, ?_⟩ <;>
    rw [groupByPeriod, sumBy_insertionSort] <;>
    exact (groupCore_field _ (fun _ _ => rfl) (fun _ => rfl) rows period).2

/-- C10: every bucket the aggregator emits, for any period and any input rows
(even rows with null/absent numeric fields), carries all five numeric fields as
actual numbers; in particular `clicks` is never null/absent in the output. -/
theorem groupByPeriod_fields_defined (rows : List Row) (period : String) :
    ∀ b ∈ groupByPeriod rows period,
      b.views.isSome ∧ b.clicks.isSome ∧ b.contacts.isSome ∧
      b.calls.isSome ∧ b.sales.isSome := by
  intro b hb
  have hb2 : b ∈ groupCore rows period := (List.mem_insertionSort rowLe).mp hb
  exact ⟨(groupCore_field Row.views (fun _ _ => rfl) (fun _ => rfl) rows period).1 b hb2,
    (groupCore_field Row.clicks (fun _ _ => rfl) (fun _ => rfl) rows period).1 b hb2,
    (groupCore_field Row.contacts (fun _ _ => rfl) (fun _ => rfl) rows period).1 b hb2,
    (groupCore_field Row.calls (fun _ _ => rfl) (fun _ => rfl) rows period).1 b hb2,
    (groupCore_field Row.sales (fun _ _ => rfl) (fun _ => rfl) rows period).1 b hb2⟩

/-- Witness for C10 at a concrete input: the row has `clicks` null, yet the
emitted bucket has every numeric field defined. -/
theorem groupByPeriod_fields_defined_witness :
    (Option.isSome (some (10 : Int)) ∧ Option.isSome (some (0 : Int)) ∧
      Option.isSome (some (2 : Int)) ∧ Option.isSome (some (0 : Int)) ∧
      Option.isSome (some (0 : Int))) :=
  groupByPeriod_fields_defined
    [⟨⟨2024, 1, 1⟩, some 10, none, some 2, none, none⟩] "day"
    ⟨⟨2024, 1, 1⟩, some 10, some 0, some 2, some 0, some 0⟩ (by decide)

/-- C2: end to end on the concrete input — two item rows in the same ISO week
(2024-01-01 is a Monday) merged with one call pair, aggregated by week, yield
the single expected bucket. -/
theorem stats_end_to_end_week :
    groupByPeriod
      (mergeRows
        [⟨⟨2024, 1, 1⟩, some 10, none, some 2, some 0, some 0⟩,
         ⟨⟨2024, 1, 2⟩, some 5, none, some 1, some 0, some 0⟩]
        [⟨⟨2024, 1, 1⟩, some 3⟩]) "week" =
      [⟨⟨2024, 1, 1⟩, some 15, some 0, some 3, some 3, some 0⟩] := by decide

/-! ### Key invariants of the aggregator and day-idempotence -/

/-- keyStrs lists the rendered date strings of a bucket list — the key set of
the underlying `Map`, in insertion order. -/
def keyStrs (m : List Bucket) : List String := m.map fun b => toISO b.date

theorem keyStrs_append (l1 l2 : List Bucket) :
    keyStrs (l1 ++ l2) = keyStrs l1 ++ keyStrs l2 := by
  simp [keyStrs]

theorem addRow_date (b : Bucket) (r : Row) : (addRow b r).date = b.date := rfl

/-- upsert appends a fresh bucket when its key string is absent from the map. -/
theorem upsert_of_not_mem (m : List Bucket) (k : Date) (r : Row)
    (h : toISO k ∉ keyStrs m) :
    upsert m k r = m ++ [addRow (newBucket k) r] := by
  induction m with
  | nil => rfl
  | cons b bs ih =>
    have hb : toISO b.date ≠ toISO k := by
      intro he
      exact h (by rw [← he]; exact List.mem_map_of_mem _ (List.mem_cons_self b bs))
    have hbs : toISO k ∉ keyStrs bs := fun hm => h (List.mem_cons_of_mem _ hm)
    simp only [upsert, if_neg hb, List.cons_append, List.cons.injEq, true_and]
    exact ih hbs

/-- upsert leaves the key-string list unchanged when the key is present. -/
theorem keyStrs_upsert_of_mem (m : List Bucket) (k : Date) (r : Row)
    (h : toISO k ∈ keyStrs m) :
    keyStrs (upsert m k r) = keyStrs m := by
  induction m with
  | nil => cases h
  | cons b bs ih =>
    by_cases hb : toISO b.date = toISO k
    · simp [upsert, if_pos hb, keyStrs, addRow_date]
    · have hbs : toISO k ∈ keyStrs bs := by
        rcases List.mem_cons.mp h with he | he
        · exact absurd he.symm hb
        · exact he
      simp only [upsert, if_neg hb, keyStrs, List.map_cons, List.cons.injEq, true_and]
      exact ih hbs

theorem keyStrs_nodup_upsert (m : List Bucket) (k : Date) (r : Row)
    (h : (keyStrs m).Nodup) : (keyStrs (upsert m k r)).Nodup := by
  by_cases hm : toISO k ∈ keyStrs m
  · rw [keyStrs_upsert_of_mem m k r hm]
    exact h
  · rw [upsert_of_not_mem m k r hm, keyStrs_append]
    rw [List.nodup_append]
    refine ⟨h, by simp [keyStrs], ?_⟩
    intro s hs hs2
    have : s = toISO k := by simpa [keyStrs] using hs2
    exact hm (this ▸ hs)

/-- Every bucket in the updated map has a date that was already a bucket date
or is the inserted key. -/
theorem mem_upsert_date (m : List Bucket) (k : Date) (r : Row) :
    ∀ b ∈ upsert m k r, b.date ∈ m.map Row.date ∨ b.date = k := by
  induction m with
  | nil =>
    intro b hb
    rw [List.mem_singleton.mp hb]
    exact Or.inr rfl
  | cons x xs ih =>
    intro b hb
    by_cases hx : toISO x.date = toISO k
    · rw [upsert, if_pos hx] at hb
      rcases List.mem_cons.mp hb with he | he
      · exact Or.inl (by rw [he, addRow_date]; simp)
      · exact Or.inl (by
          simp only [List.map_cons, List.mem_cons]
          exact Or.inr (List.mem_map_of_mem _ he))
    · rw [upsert, if_neg hx] at hb
      rcases List.mem_cons.mp hb with he | he
      · exact Or.inl (by rw [he]; simp)
      · rcases ih b he with hd | hd
        · exact Or.inl (by simp only [List.map_cons, List.mem_cons]; exact Or.inr hd)
        · exact Or.inr hd

/-- groupCore invariants: distinct bucket keys, and every bucket date is the
period key of some input row's date. -/
theorem groupCore_inv (rows : List Row) (period : String) :
    (keyStrs (groupCore rows period)).Nodup ∧
    ∀ b ∈ groupCore rows period, ∃ r0 ∈ rows, b.date = dateKey period r0.date := by
  suffices h : ∀ (m : List Bucket), (keyStrs m).Nodup →
      (keyStrs (rows.foldl (fun m r => upsert m (dateKey period r.date) r) m)).Nodup ∧
      ∀ b ∈ rows.foldl (fun m r => upsert m (dateKey period r.date) r) m,
        b.date ∈ m.map Row.date ∨ ∃ r0 ∈ rows, b.date = dateKey period r0.date by
    obtain ⟨h1, h2⟩ := h [] (by simp [keyStrs])
    refine ⟨h1, fun b hb => ?_⟩
    rcases h2 b hb with hd | hd
    · simp at hd
    · exact hd
  induction rows with
  | nil =>
    intro m hm
    exact ⟨hm, fun b hb => Or.inl (List.mem_map_of_mem _ hb)⟩
  | cons r rs ih =>
    intro m hm
    rw [List.foldl_cons]
    obtain ⟨h1, h2⟩ := ih (upsert m (dateKey period r.date) r)
      (keyStrs_nodup_upsert m (dateKey period r.date) r hm)
    refine ⟨h1, fun b hb => ?_⟩
    rcases h2 b hb with hd | hd
    · rw [List.mem_map] at hd
      obtain ⟨x, hx, hxd⟩ := hd
      rcases mem_upsert_date m (dateKey period r.date) r x hx with hh | hh
      · exact Or.inl (hxd ▸ hh)
      · exact Or.inr ⟨r, List.mem_cons_self r rs, hxd ▸ hh⟩
    · obtain ⟨r0, hr0, he⟩ := hd
      exact Or.inr ⟨r0, List.mem_cons_of_mem r hr0, he⟩

/-- Re-inserting a fully defined bucket into a fresh slot reproduces it: the
new accumulator starts at zero and absorbs exactly the bucket's own numbers. -/
theorem addRow_newBucket_self (b : Bucket)
    (h : b.views.isSome ∧ b.clicks.isSome ∧ b.contacts.isSome ∧
      b.calls.isSome ∧ b.sales.isSome) :
    addRow (newBucket b.date) b = b := by
  obtain ⟨h1, h2, h3, h4, h5⟩ := h
  obtain ⟨v1, e1⟩ := Option.isSome_iff_exists.mp h1
  obtain ⟨v2, e2⟩ := Option.isSome_iff_exists.mp h2
  obtain ⟨v3, e3⟩ := Option.isSome_iff_exists.mp h3
  obtain ⟨v4, e4⟩ := Option.isSome_iff_exists.mp h4
  obtain ⟨v5, e5⟩ := Option.isSome_iff_exists.mp h5
  cases b
  simp only at e1 e2 e3 e4 e5
  simp [addRow, newBucket, e1, e2, e3, e4, e5, jsNum]

/-- Replaying a list of buckets with pairwise distinct key strings and
key-fixed dates through the bucketing loop appends them unchanged. -/
theorem groupCore_replay (period : String) :
    ∀ (bs : List Bucket) (m : List Bucket),
      (keyStrs (m ++ bs)).Nodup →
      (∀ b ∈ bs, b.views.isSome ∧ b.clicks.isSome ∧ b.contacts.isSome ∧
        b.calls.isSome ∧ b.sales.isSome) →
      (∀ b ∈ bs, dateKey period b.date = b.date) →
      bs.foldl (fun m r => upsert m (dateKey period r.date) r) m = m ++ bs := by
  intro bs
  induction bs with
  | nil =>
    intro m _ _ _
    simp
  | cons b rest ih =>
    intro m hnd hsome hkey
    rw [List.foldl_cons]
    have hkb : dateKey period b.date = b.date := hkey b (List.mem_cons_self b rest)
    have hnotmem : toISO b.date ∉ keyStrs m := by
      intro hmem
      rw [keyStrs_append] at hnd
      have hdisj := (List.nodup_append.mp hnd).2.2
      exact hdisj hmem (by simp [keyStrs])
    have hstep : upsert m (dateKey period b.date) b = m ++ [b] := by
      rw [hkb, upsert_of_not_mem m b.date b hnotmem,
        addRow_newBucket_self b (hsome b (List.mem_cons_self b rest))]
    rw [hstep]
    have hnd2 : (keyStrs ((m ++ [b]) ++ rest)).Nodup := by
      rw [List.append_assoc]
      exact (by simpa using hnd)
    rw [ih (m ++ [b]) hnd2
      (fun x hx => hsome x (List.mem_cons_of_mem b hx))
      (fun x hx => hkey x (List.mem_cons_of_mem b hx))]
    simp

theorem dateKey_day (dt : Date) : dateKey "day" dt = canon dt := rfl

/-- C9: aggregating an already day-bucketed series by day again yields the same
series, for input rows whose dates are actual calendar dates (the only ones a
request can deliver — an unparsable date string makes the handler throw). -/
theorem groupByPeriod_day_idempotent (rows : List Row)
    (hc : ∀ r ∈ rows, canon r.date = r.date) :
    groupByPeriod (groupByPeriod rows "day") "day" = groupByPeriod rows "day" := by
  obtain ⟨hnod, hdates⟩ := groupCore_inv rows "day"
  have hfix : ∀ b ∈ groupByPeriod rows "day", dateKey "day" b.date = b.date := by
    intro b hb
    obtain ⟨r0, hr0, he⟩ := hdates b ((List.mem_insertionSort rowLe).mp hb)
    rw [dateKey_day, hc r0 hr0] at he
    rw [dateKey_day, he, hc r0 hr0]
  have hnod2 : (keyStrs (groupByPeriod rows "day")).Nodup := by
    have hp := (List.perm_insertionSort rowLe (groupCore rows "day")).map
      fun b => toISO b.date
    exact hp.nodup_iff.mpr hnod
  have hsome : ∀ b ∈ groupByPeriod rows "day",
      b.views.isSome ∧ b.clicks.isSome ∧ b.contacts.isSome ∧
      b.calls.isSome ∧ b.sales.isSome := by
    intro b hb
    have hb2 : b ∈ groupCore rows "day" := (List.mem_insertionSort rowLe).mp hb
    exact ⟨(groupCore_field Row.views (fun _ _ => rfl) (fun _ => rfl) rows "day").1 b hb2,
      (groupCore_field Row.clicks (fun _ _ => rfl) (fun _ => rfl) rows "day").1 b hb2,
      (groupCore_field Row.contacts (fun _ _ => rfl) (fun _ => rfl) rows "day").1 b hb2,
      (groupCore_field Row.calls (fun _ _ => rfl) (fun _ => rfl) rows "day").1 b hb2,
      (groupCore_field Row.sales (fun _ _ => rfl) (fun _ => rfl) rows "day").1 b hb2⟩
  have hcore : groupCore (groupByPeriod rows "day") "day" = groupByPeriod rows "day" := by
    have hr := groupCore_replay "day" (groupByPeriod rows "day") []
      (by simpa using hnod2) hsome hfix
    simpa [groupCore] using hr
  show (groupCore (groupByPeriod rows "day") "day").insertionSort rowLe = groupByPeriod rows "day"
  rw [hcore]
  exact List.Sorted.insertionSort_eq (List.sorted_insertionSort rowLe _)

/-- Witness for C9 at a concrete two-day series. -/
theorem groupByPeriod_day_idempotent_witness :
    groupByPeriod (groupByPeriod
      [⟨⟨2024, 1, 2⟩, some 5, none, some 1, some 0, some 0⟩,
       ⟨⟨2024, 1, 1⟩, some 10, none, some 2, some 0, some 0⟩] "day") "day" =
    groupByPeriod
      [⟨⟨2024, 1, 2⟩, some 5, none, some 1, some 0, some 0⟩,
       ⟨⟨2024, 1, 1⟩, some 10, none, some 2, some 0, some 0⟩] "day" :=
  groupByPeriod_day_idempotent _ (by decide)

/-! ### Reconciler: duplicate-date resolution -/

/-- getByDate is `Map.prototype.get` on the association-list model: the first
row whose date string matches. -/
def getByDate (m : List Row) (s : String) : Option Row :=
  match m with
  | [] => none
  | x :: xs => if toISO x.date = s then some x else getByDate xs s

theorem getByDate_append (l1 l2 : List Row) (s : String) :
    getByDate (l1 ++ l2) s = (getByDate l1 s).or (getByDate l2 s) := by
  induction l1 with
  | nil => simp [getByDate]
  | cons x xs ih =>
    by_cases hx : toISO x.date = s
    · simp [getByDate, hx]
    · simp [getByDate, hx, ih]

theorem getByDate_setByDate (m : List Row) (r : Row) (s : String) :
    getByDate (setByDate m r) s =
      if toISO r.date = s then some r else getByDate m s := by
  induction m with
  | nil => rfl
  | cons x xs ih =>
    by_cases hx : toISO x.date = toISO r.date
    · rw [setByDate, if_pos hx]
      by_cases hs : toISO r.date = s
      · rw [getByDate, if_pos hs, if_pos hs]
      · rw [getByDate, if_neg hs, if_neg hs, getByDate, if_neg (hx ▸ hs)]
    · rw [setByDate, if_neg hx]
      by_cases hxs : toISO x.date = s
      · have hrs : ¬ toISO r.date = s := fun he => hx (hxs.trans he.symm)
        rw [getByDate, if_pos hxs, if_neg hrs, getByDate, if_pos hxs]
      · rw [getByDate, if_neg hxs, ih]
        by_cases hrs : toISO r.date = s
        · rw [if_pos hrs, if_pos hrs]
        · rw [if_neg hrs, if_neg hrs, getByDate, if_neg hxs]

/-- The map built by the merge resolves each date string to the LAST input row
carrying it: `getByDate` of the fold equals lookup in the reversed input. -/
theorem getByDate_foldl_setByDate :
    ∀ (rows : List Row) (m : List Row) (s : String),
      getByDate (rows.foldl setByDate m) s =
        (getByDate rows.reverse s).or (getByDate m s) := by
  intro rows
  induction rows with
  | nil =>
    intro m s
    simp [getByDate]
  | cons r rs ih =>
    intro m s
    rw [List.foldl_cons, List.reverse_cons, ih, getByDate_append, Option.or_assoc]
    congr 1
    rw [getByDate_setByDate]
    by_cases hrs : toISO r.date = s
    · rw [if_pos hrs, getByDate, if_pos hrs]
      cases getByDate m s <;> rfl
    · rw [if_neg hrs, getByDate, if_neg hrs]
      cases getByDate m s <;> rfl

theorem setByDate_keyStrs_of_mem (m : List Row) (r : Row)
    (h : toISO r.date ∈ keyStrs m) : keyStrs (setByDate m r) = keyStrs m := by
  induction m with
  | nil => cases h
  | cons x xs ih =>
    by_cases hx : toISO x.date = toISO r.date
    · simp only [setByDate, if_pos hx, keyStrs, List.map_cons, List.cons.injEq]
      exact ⟨hx.symm, trivial⟩
    · have hxs : toISO r.date ∈ keyStrs xs := by
        rcases List.mem_cons.mp h with he | he
        · exact absurd he.symm hx
        · exact he
      simp only [setByDate, if_neg hx, keyStrs, List.map_cons, List.cons.injEq, true_and]
      exact ih hxs

theorem setByDate_of_not_mem (m : List Row) (r : Row)
    (h : toISO r.date ∉ keyStrs m) : setByDate m r = m ++ [r] := by
  induction m with
  | nil => rfl
  | cons x xs ih =>
    have hx : ¬ toISO x.date = toISO r.date := by
      intro he
      exact h (by rw [← he]; exact List.mem_map_of_mem _ (List.mem_cons_self x xs))
    have hxs : toISO r.date ∉ keyStrs xs := fun hm => h (List.mem_cons_of_mem _ hm)
    simp only [setByDate, if_neg hx, List.cons_append, List.cons.injEq, true_and]
    exact ih hxs

theorem setByDate_keyStrs_nodup (m : List Row) (r : Row)
    (h : (keyStrs m).Nodup) : (keyStrs (setByDate m r)).Nodup := by
  by_cases hm : toISO r.date ∈ keyStrs m
  · rw [setByDate_keyStrs_of_mem m r hm]
    exact h
  · rw [setByDate_of_not_mem m r hm, keyStrs_append, List.nodup_append]
    refine ⟨h, by simp [keyStrs], ?_⟩
    intro s hs hs2
    have : s = toISO r.date := by simpa [keyStrs] using hs2
    exact hm (this ▸ hs)

theorem rowsMap_keyStrs_nodup (rows : List Row) : (keyStrs (rowsMap rows)).Nodup := by
  suffices h : ∀ m : List Row, (keyStrs m).Nodup →
      (keyStrs (rows.foldl setByDate m)).Nodup from
    h [] (by simp [keyStrs])
  induction rows with
  | nil =>
    intro m hm
    exact hm
  | cons r rs ih =>
    intro m hm
    rw [List.foldl_cons]
    exact ih (setByDate m r) (setByDate_keyStrs_nodup m r hm)

theorem getByDate_of_mem (m : List Row) (r : Row)
    (hnd : (keyStrs m).Nodup) (h : r ∈ m) : getByDate m (toISO r.date) = some r := by
  induction m with
  | nil => cases h
  | cons x xs ih =>
    rcases List.mem_cons.mp h with he | he
    · rw [he, getByDate, if_pos rfl]
    · have hx : ¬ toISO x.date = toISO r.date := by
        intro hxe
        have hhead : toISO x.date ∉ keyStrs xs := (List.nodup_cons.mp hnd).1
        exact hhead (hxe ▸ List.mem_map_of_mem _ he)
      rw [getByDate, if_neg hx]
      exact ih (List.nodup_cons.mp hnd).2 he

theorem getByDate_mem (m : List Row) (s : String) (y : Row)
    (h : getByDate m s = some y) : y ∈ m ∧ toISO y.date = s := by
  induction m with
  | nil => cases h
  | cons x xs ih =>
    by_cases hx : toISO x.date = s
    · rw [getByDate, if_pos hx] at h
      have hxy : x = y := Option.some_inj.mp h
      subst hxy
      exact ⟨List.mem_cons_self x xs, hx⟩
    · rw [getByDate, if_neg hx] at h
      obtain ⟨h1, h2⟩ := ih h
      exact ⟨List.mem_cons_of_mem x h1, h2⟩

theorem getByDate_isSome_of_key_mem (m : List Row) (s : String)
    (h : s ∈ keyStrs m) : ∃ y, getByDate m s = some y := by
  induction m with
  | nil => cases h
  | cons x xs ih =>
    by_cases hx : toISO x.date = s
    · exact ⟨x, by rw [getByDate, if_pos hx]⟩
    · have hxs : s ∈ keyStrs xs := by
        rcases List.mem_cons.mp h with he | he
        · exact absurd he.symm hx
        · exact he
      obtain ⟨y, hy⟩ := ih hxs
      exact ⟨y, by rw [getByDate, if_neg hx]; exact hy⟩

/-- C3 counterexample: with two item rows sharing the date key, the merged
output carries the SECOND row's field values, not the first's — `new Map`
lets a later duplicate entry overwrite an earlier one. -/
theorem merge_first_duplicate_cex :
    mergeRows
      [⟨⟨2024, 1, 1⟩, some 1, none, some 0, some 0, some 0⟩,
       ⟨⟨2024, 1, 1⟩, some 2, none, some 0, some 0, some 0⟩] [] =
      [⟨⟨2024, 1, 1⟩, some 2, none, some 0, some 0, some 0⟩] ∧
    (⟨⟨2024, 1, 1⟩, some 1, none, some 0, some 0, some 0⟩ : Row) ≠
      ⟨⟨2024, 1, 1⟩, some 2, none, some 0, some 0, some 0⟩ := by decide

/-- C3 (amended): when the item-row input to the merge contains duplicate date
keys, the LAST such row wins — every merged output row is exactly the latest
input row with its date (first match in the reversed input), and every input
date is represented in the output. -/
theorem merge_last_duplicate_wins (rows : List Row) :
    (∀ b ∈ mergeRows rows [], getByDate rows.reverse (toISO b.date) = some b) ∧
    (∀ x ∈ rows, ∃ b ∈ mergeRows rows [], toISO b.date = toISO x.date) := by
  constructor
  · intro b hb
    have hb2 : b ∈ rowsMap rows := (List.mem_insertionSort rowLe).mp hb
    have hga := getByDate_of_mem (rowsMap rows) b (rowsMap_keyStrs_nodup rows) hb2
    rw [show getByDate (rowsMap rows) (toISO b.date) =
        (getByDate rows.reverse (toISO b.date)).or (getByDate [] (toISO b.date)) from
      getByDate_foldl_setByDate rows [] (toISO b.date)] at hga
    simpa [getByDate] using hga
  · intro x hx
    have hkey : toISO x.date ∈ keyStrs rows.reverse :=
      List.mem_map_of_mem _ (List.mem_reverse.mpr hx)
    obtain ⟨y, hy⟩ := getByDate_isSome_of_key_mem rows.reverse (toISO x.date) hkey
    have hymap : getByDate (rowsMap rows) (toISO x.date) = some y := by
      rw [show getByDate (rowsMap rows) (toISO x.date) =
          (getByDate rows.reverse (toISO x.date)).or (getByDate [] (toISO x.date)) from
        getByDate_foldl_setByDate rows [] (toISO x.date), hy]
      rfl
    obtain ⟨hmem, hdate⟩ := getByDate_mem (rowsMap rows) (toISO x.date) y hymap
    exact ⟨y, (List.mem_insertionSort rowLe).mpr hmem, hdate⟩

/-- Witness for the amended C3 at the counterexample input: the output row for
2024-01-01 is the second (latest) duplicate. -/
theorem merge_last_duplicate_wins_witness :
    getByDate
      [⟨⟨2024, 1, 1⟩, some 1, none, some 0, some 0, some 0⟩,
       ⟨⟨2024, 1, 1⟩, some 2, none, some 0, some 0, some 0⟩].reverse
      (toISO (⟨2024, 1, 1⟩ : Date)) =
      some ⟨⟨2024, 1, 1⟩, some 2, none, some 0, some 0, some 0⟩ :=
  (merge_last_duplicate_wins
    [⟨⟨2024, 1, 1⟩, some 1, none, some 0, some 0, some 0⟩,
     ⟨⟨2024, 1, 1⟩, some 2, none, some 0, some 0, some 0⟩]).1
    ⟨⟨2024, 1, 1⟩, some 2, none, some 0, some 0, some 0⟩ (by decide)

/-! ### Item-stats adapter: key selection and field fallbacks -/

/-- C4 counterexample: a record whose `stats` key holds an EMPTY list while
`dates` holds a usable entry contributes no rows — `||` takes the first truthy
operand and an empty array is truthy in JavaScript, so `stats` wins anyway. -/
theorem adapt_stats_empty_shadows_dates_cex :
    adaptItemsStats
      ⟨some [⟨some [],
        some [⟨some ⟨2024, 1, 1⟩, none, none, some 7, none, none, some 1, none, none⟩],
        none⟩], none⟩ = [] := by decide

/-- C4 (amended): the date-series list of a record is the first PRESENT
(non-null/undefined) of `stats`, `dates`, `statistics`, in that order, even
when the chosen list is empty: a present `stats` makes `dates`/`statistics`
irrelevant, a present `dates` makes `statistics` irrelevant, and a record with
none of the keys contributes nothing. -/
theorem adapt_first_present_key_wins :
    (∀ (statsL datesL : List ItemEntry) (stL : Option (List ItemEntry)),
      adaptItemsStats ⟨some [⟨some statsL, some datesL, stL⟩], none⟩ =
        adaptItemsStats ⟨some [⟨some statsL, none, none⟩], none⟩) ∧
    (∀ (datesL : List ItemEntry) (stL : Option (List ItemEntry)),
      adaptItemsStats ⟨some [⟨none, some datesL, stL⟩], none⟩ =
        adaptItemsStats ⟨some [⟨none, some datesL, none⟩], none⟩) ∧
    adaptItemsStats ⟨some [⟨none, none, none⟩], none⟩ = [] :=
  ⟨fun _ _ _ => rfl, fun _ _ => rfl, rfl⟩

/-- C8: `views` is resolved by ordered fallback over defined values — a daily
entry with only `uniqViews` defined yields that value, an entry with both
`views` and `uniqViews` yields `views`, and an entry with none of the three
candidates yields 0. -/
theorem adapt_views_fallback (dt : Date) (v u : Int) :
    (∀ tv : Option Int,
      adaptItemsStats
        ⟨some [⟨some [⟨some dt, none, none, none, some u, tv, none, none, none⟩],
          none, none⟩], none⟩ =
        [⟨dt, some u, none, some 0, some 0, some 0⟩]) ∧
    adaptItemsStats
      ⟨some [⟨some [⟨some dt, none, none, some v, some u, none, none, none, none⟩],
        none, none⟩], none⟩ =
      [⟨dt, some v, none, some 0, some 0, some 0⟩] ∧
    adaptItemsStats
      ⟨some [⟨some [⟨some dt, none, none, none, none, none, none, none, none⟩],
        none, none⟩], none⟩ =
      [⟨dt, some 0, none, some 0, some 0, some 0⟩] :=
  ⟨fun _ => rfl, rfl, rfl⟩

/-! ### Token cache -/

/-- isErr recognises a rejected/thrown outcome of the token function. -/
def isErr : Except String (Option String) → Bool
  | .error _ => true
  | .ok _ => false

/-- exchangeBad marks the upstream outcomes the code treats as failures of the
token exchange: a rejected fetch, a non-success status, or an unparsable body.
A parsable body MISSING `access_token` is not among them. -/
def exchangeBad : TokenResp → Bool
  | .netError _ => true
  | .resp ok _ _ body => !ok || body.isNone

/-- C5 counterexample: a success status with a well-formed JSON body lacking
`access_token` is NOT an error — `getAccessToken` returns (and caches) the
undefined token. -/
theorem getAccessToken_missing_token_cex :
    getAccessToken ⟨none, 0⟩ 100 (TokenResp.resp true 200 "" (some ⟨none, none⟩)) =
      (Except.ok none, ⟨none, 3700⟩, true) := rfl

/-- C5 (amended): when the cache is not valid (so an exchange happens),
`getAccessToken` fails exactly on a rejected fetch, non-success status or
unparsable body, leaving the cache unchanged; on a success status with a
parsable body it succeeds with `j.access_token` — possibly undefined — and
caches it. -/
theorem getAccessToken_error_characterisation (st : AuthState) (now : Int) (r : TokenResp)
    (h : ¬ (tokenTruthy st.accessToken = true ∧ now < st.tokenExp - 60)) :
    (isErr (getAccessToken st now r).1 = true ↔ exchangeBad r = true) ∧
    (exchangeBad r = true → (getAccessToken st now r).2.1 = st) ∧
    (∀ (status : Int) (text : String) (j : TokenBody),
      r = TokenResp.resp true status text (some j) →
      (getAccessToken st now r).1 = Except.ok j.access_token ∧
      (getAccessToken st now r).2.1 = ⟨j.access_token, now + jsOrNum j.expires_in 3600⟩) := by
  unfold getAccessToken
  rw [if_neg h]
  cases r with
  | netError msg =>
    refine ⟨by simp [isErr, exchangeBad], fun _ => rfl, ?_⟩
    intro status text j hEq
    exact TokenResp.noConfusion hEq
  | resp ok status text body =>
    cases ok with
    | false =>
      refine ⟨by simp [isErr, exchangeBad], fun _ => rfl, ?_⟩
      intro status2 text2 j hEq
      simp at hEq
    | true =>
      cases body with
      | none =>
        refine ⟨by simp [isErr, exchangeBad], fun _ => rfl, ?_⟩
        intro status2 text2 j hEq
        simp at hEq
      | some j0 =>
        refine ⟨by simp [isErr, exchangeBad], by simp [exchangeBad], ?_⟩
        intro status2 text2 j hEq
        have hj : j0 = j := by
          injection hEq with _ _ _ hbody
          exact Option.some_inj.mp hbody
        subst hj
        exact ⟨by simp, by simp⟩

/-- Witness for the amended C5: cold cache, successful well-formed exchange. -/
theorem getAccessToken_error_characterisation_witness :
    (getAccessToken ⟨none, 0⟩ 5
        (TokenResp.resp true 200 "" (some ⟨some "tok", some 100⟩))).1 =
      Except.ok (some "tok") :=
  ((getAccessToken_error_characterisation ⟨none, 0⟩ 5
      (TokenResp.resp true 200 "" (some ⟨some "tok", some 100⟩)) (by decide)).2.2
    200 "" ⟨some "tok", some 100⟩ rfl).1

/-- C6: with a (non-empty) token stored at `t0` with `expires_in = 3600`, any
call strictly before `t0 + 3540` returns the cached token with no exchange and
unchanged state; any call at or after `t0 + 3540` performs a fresh exchange,
and — when the exchange succeeds with a well-formed body — returns that body's
token. -/
theorem token_cache_window (tok : String) (htok : tok ≠ "") (t0 now : Int) (r : TokenResp) :
    (now < t0 + 3540 →
      getAccessToken ⟨some tok, t0 + 3600⟩ now r =
        (Except.ok (some tok), ⟨some tok, t0 + 3600⟩, false)) ∧
    (t0 + 3540 ≤ now →
      (getAccessToken ⟨some tok, t0 + 3600⟩ now r).2.2 = true ∧
      ∀ (status : Int) (text : String) (j : TokenBody),
        r = TokenResp.resp true status text (some j) →
        (getAccessToken ⟨some tok, t0 + 3600⟩ now r).1 = Except.ok j.access_token) := by
  constructor
  · intro hlt
    unfold getAccessToken
    rw [if_pos ⟨by simp [tokenTruthy, htok], show now < (t0 + 3600) - 60 by omega⟩]
  · intro hge
    have hcond : ¬ (tokenTruthy (some tok) = true ∧ now < (t0 + 3600) - 60) := by
      rintro ⟨_, hl⟩
      omega
    unfold getAccessToken
    rw [if_neg hcond]
    cases r with
    | netError msg =>
      refine ⟨rfl, ?_⟩
      intro status text j hEq
      exact TokenResp.noConfusion hEq
    | resp ok status text body =>
      cases ok with
      | false =>
        refine ⟨rfl, ?_⟩
        intro status2 text2 j hEq
        simp at hEq
      | true =>
        cases body with
        | none =>
          refine ⟨rfl, ?_⟩
          intro status2 text2 j hEq
          simp at hEq
        | some j0 =>
          refine ⟨rfl, ?_⟩
          intro status2 text2 j hEq
          have hj : j0 = j := by
            injection hEq with _ _ _ hbody
            exact Option.some_inj.mp hbody
          subst hj
          simp

/-- Witness for C6: a call 100 seconds after storage is served from cache even
though the upstream is down. -/
theorem token_cache_window_witness :
    getAccessToken ⟨some "tok", 3600⟩ 100 (TokenResp.netError "down") =
      (Except.ok (some "tok"), ⟨some "tok", 3600⟩, false) :=
  (token_cache_window "tok" (by decide) 0 100 (TokenResp.netError "down")).1 (by omega)

/-! ### Best-effort call-stats merge -/

/-- Every row the item-stats adapter emits carries `calls = 0` (a defined 0). -/
theorem adaptItemsStats_calls (raw : ItemsRaw) :
    ∀ r ∈ adaptItemsStats raw, r.calls = some 0 := by
  intro r hr
  simp only [adaptItemsStats, List.mem_flatMap] at hr
  obtain ⟨b, _, hrb⟩ := hr
  simp only [recordRows, List.mem_filterMap] at hrb
  obtain ⟨d, _, hd⟩ := hrb
  unfold entryRow at hd
  cases hm : jsOr (jsOr d.date d.day) d.dt with
  | none =>
    rw [hm] at hd
    simp at hd
  | some dd =>
    rw [hm] at hd
    simp only [Option.some_inj] at hd
    rw [← hd]

theorem upsert_calls_zero (m : List Bucket) (k : Date) (r : Row)
    (hm : ∀ b ∈ m, b.calls = some 0) (hr : jsNum r.calls = 0) :
    ∀ b ∈ upsert m k r, b.calls = some 0 := by
  induction m with
  | nil =>
    intro b hb
    rw [List.mem_singleton.mp hb]
    show (some (0 + jsNum r.calls) : Option Int) = some 0
    rw [hr]
    rfl
  | cons x xs ih =>
    intro b hb
    by_cases hx : toISO x.date = toISO k
    · rw [upsert, if_pos hx] at hb
      rcases List.mem_cons.mp hb with he | he
      · rw [he]
        show x.calls.map (· + jsNum r.calls) = some 0
        rw [hm x (List.mem_cons_self x xs), hr]
        rfl
      · exact hm b (List.mem_cons_of_mem _ he)
    · rw [upsert, if_neg hx] at hb
      rcases List.mem_cons.mp hb with he | he
      · rw [he]
        exact hm x (List.mem_cons_self x xs)
      · exact ih (fun y hy => hm y (List.mem_cons_of_mem _ hy)) b he

/-- If every input row has a (defined or absent) zero `calls`, so does every
output bucket. -/
theorem groupByPeriod_calls_zero (rows : List Row) (period : String)
    (h : ∀ r ∈ rows, jsNum r.calls = 0) :
    ∀ b ∈ groupByPeriod rows period, b.calls = some 0 := by
  have main : ∀ (rs : List Row) (m : List Bucket), (∀ r ∈ rs, jsNum r.calls = 0) →
      (∀ b ∈ m, b.calls = some 0) →
      ∀ b ∈ rs.foldl (fun m r => upsert m (dateKey period r.date) r) m, b.calls = some 0 := by
    intro rs
    induction rs with
    | nil =>
      intro m _ hm
      exact hm
    | cons r rsx ih =>
      intro m hrs hm
      rw [List.foldl_cons]
      exact ih _ (fun x hx => hrs x (List.mem_cons_of_mem _ hx))
        (upsert_calls_zero m _ r hm (hrs r (List.mem_cons_self r rsx)))
  intro b hb
  exact main rows [] h (by simp) b ((List.mem_insertionSort rowLe).mp hb)

/-- C7: when the call-stats step fails (rejected fetch, non-success status, or
parse error), `/stats` does not abort: the merge is skipped, the response is
the aggregation of the item rows alone, no error is surfaced, and every
emitted bucket has `calls = 0`. -/
theorem stats_call_failure_degrades (raw : ItemsRaw) (cf : CallFetch) (grouping : String)
    (h : callFailed cf = true) :
    statsSeries (some raw) cf grouping =
      Except.ok (groupByPeriod (adaptItemsStats raw) grouping) ∧
    ∀ b ∈ groupByPeriod (adaptItemsStats raw) grouping, b.calls = some 0 := by
  constructor
  · cases cf with
    | fail msg => rfl
    | resp ok body =>
      cases ok with
      | false => rfl
      | true =>
        cases body with
        | none => rfl
        | some j2 => simp [callFailed] at h
  · exact groupByPeriod_calls_zero (adaptItemsStats raw) grouping
      (fun r hr => by rw [adaptItemsStats_calls raw r hr]; rfl)

/-- Witness for C7: one item record, call-stats fetch rejected. -/
theorem stats_call_failure_degrades_witness :
    statsSeries
      (some ⟨some [⟨some [⟨some ⟨2024, 1, 1⟩, none, none, some 7, none, none,
        some 1, none, none⟩], none, none⟩], none⟩)
      (CallFetch.fail "timeout") "day" =
      Except.ok (groupByPeriod (adaptItemsStats
        ⟨some [⟨some [⟨some ⟨2024, 1, 1⟩, none, none, some 7, none, none,
          some 1, none, none⟩], none, none⟩], none⟩) "day") :=
  (stats_call_failure_degrades
    ⟨some [⟨some [⟨some ⟨2024, 1, 1⟩, none, none, some 7, none, none,
      some 1, none, none⟩], none, none⟩], none⟩
    (CallFetch.fail "timeout") "day" (by decide)).1
